import Mathlib

/-!
# Verification of the ESPN fantasy proxy core logic

Shallow embedding of the core logic of `src/app.py`:
the TTL cache (`cache_get` / `cache_put`), the projection extractor
(`find_week_projection`), the roster partitioner (the starters/bench filters
shared by `team_overview` and `start_sit`), and the start/sit recommendation
engine (`start_sit`).

Modelling conventions:
* JSON dictionaries with possibly-missing fields become structures with
  `Option` fields; Python's `dict.get(k)` is field access, `dict.get(k, d)`
  and `(... or d)` become `Option.getD`.
* Python floats are modelled as exact rationals (`ℚ`); `round(x, 2)` is
  modelled as rounding `x * 100` to the nearest integer and dividing by 100.
* `time.time()` is nondeterministic, so the cache operations take the current
  time `now : ℚ` as an explicit argument, and the process-wide `CACHE` dict
  becomes an explicit state (a function from keys to optional entries).
* Python's stable `sorted` / `list.sort` is modelled by Mathlib's stable
  `List.insertionSort` with the corresponding (total, transitive) key order.
-/

/-- One element of a player's `stats` array: a per-period stat record. -/
structure Stat where
  scoringPeriodId : Option Int := none
  statSourceId : Option Int := none
  appliedTotal : Option ℚ := none
  seasonId : Option Int := none
deriving DecidableEq

/-- The `ownership` sub-object of a player. -/
structure Ownership where
  percentOwned : Option ℚ := none
deriving DecidableEq

/-- The `player` object embedded in `playerPoolEntry`.  An absent
`playerPoolEntry`/`player` (the code's `(e.get("playerPoolEntry") or {}).get("player", {})`)
is the structure with all fields absent. -/
structure Player where
  fullName : Option String := none
  defaultPositionId : Option Int := none
  eligibleSlots : Option (List Int) := none
  injuryStatus : Option String := none
  stats : List Stat := []
  ownership : Option Ownership := none
deriving DecidableEq

/-- A roster entry of a team (`roster.entries[i]`). -/
structure RosterEntry where
  playerId : Option Int := none
  lineupSlotId : Option Int := none
  player : Player := {}
deriving DecidableEq

/-- A team of the fetched league snapshot.  `roster` models
`(t.get("roster") or {}).get("entries", [])`: `none` stands for a missing
roster (or missing entries), read back with `Option.getD []`. -/
structure Team where
  id : Int
  name : Option String := none
  roster : Option (List RosterEntry) := none
deriving DecidableEq

/-! ## Projection extractor (`find_week_projection`, app.py lines 82-96) -/

/-- The loop test of the exact-match scan: `scoringPeriodId == week and
statSourceId == 1` together with the inner
`"appliedTotal" in s and s["appliedTotal"] is not None` (a record matching the
period and source but with a null total does not return; the loop continues). -/
def statExactMatch (week : Int) (s : Stat) : Bool :=
  s.scoringPeriodId == some week && s.statSourceId == some 1 && s.appliedTotal.isSome

/-- The fallback filter: `s.get("statSourceId") == 1 and s.get("appliedTotal") is not None`. -/
def statProjRecord (s : Stat) : Bool :=
  s.statSourceId == some 1 && s.appliedTotal.isSome

/-- The sort key of the fallback: `(x.get("seasonId", 0), x.get("scoringPeriodId", 0))`. -/
def statKey (s : Stat) : Int × Int :=
  (s.seasonId.getD 0, s.scoringPeriodId.getD 0)

/-- Lexicographic comparison of `statKey`s, as Python compares key tuples. -/
def statKeyLE (a b : Stat) : Prop :=
  (statKey a).1 < (statKey b).1 ∨ ((statKey a).1 = (statKey b).1 ∧ (statKey a).2 ≤ (statKey b).2)

instance : DecidableRel statKeyLE := fun a b => by
  unfold statKeyLE; exact inferInstance

instance : IsTotal Stat statKeyLE := by
  constructor
  intro a b
  unfold statKeyLE
  rcases lt_trichotomy (statKey a).1 (statKey b).1 with h | h | h
  · exact Or.inl (Or.inl h)
  · rcases le_total (statKey a).2 (statKey b).2 with h2 | h2
    · exact Or.inl (Or.inr ⟨h, h2⟩)
    · exact Or.inr (Or.inr ⟨h.symm, h2⟩)
  · exact Or.inr (Or.inl h)

instance : IsTrans Stat statKeyLE := by
  constructor
  intro a b c hab hbc
  unfold statKeyLE at *
  rcases hab with h1 | ⟨h1, h1'⟩
  · rcases hbc with h2 | ⟨h2, h2'⟩
    · exact Or.inl (h1.trans h2)
    · exact Or.inl (h2 ▸ h1)
  · rcases hbc with h2 | ⟨h2, h2'⟩
    · exact Or.inl (h1 ▸ h2)
    · exact Or.inr ⟨h1.trans h2, h1'.trans h2'⟩

/-- `find_week_projection(player_obj, week)` (app.py lines 82-96): first scan
for an exact week match with `statSourceId == 1` and a non-null total; else
sort all projection records ascending by `(seasonId, scoringPeriodId)` with
Python's stable sort and return the last one's total; else `None`. -/
def find_week_projection (p : Player) (week : Int) : Option ℚ :=
  match p.stats.find? (statExactMatch week) with
  | some s => s.appliedTotal
  | none =>
    match (List.insertionSort statKeyLE (p.stats.filter statProjRecord)).getLast? with
    | some s => s.appliedTotal
    | none => none

/-! ## TTL cache (`cache_get` / `cache_put`, app.py lines 62-72) -/

/-- The process-wide `CACHE` dict: keys to `(timestamp, data)` rows. -/
def CacheState (α : Type) : Type := String → Option (ℚ × α)

/-- `cache_get(key, ttl)` at explicit current time `now`: returns the stored
data only when `now - ts < ttl` (strictly), and leaves the state untouched
(the Python function never assigns to `CACHE`), which the explicit state
passing records by returning the state unchanged. -/
def cache_get {α : Type} (c : CacheState α) (now : ℚ) (key : String) (ttl : ℚ) :
    Option α × CacheState α :=
  match c key with
  | none => (none, c)
  | some (ts, data) => (if now - ts < ttl then some data else none, c)

/-- `cache_put(key, data)` at explicit current time `now`:
`CACHE[key] = (time.time(), data)`. -/
def cache_put {α : Type} (c : CacheState α) (now : ℚ) (key : String) (data : α) :
    CacheState α :=
  fun k => if k = key then some (now, data) else c k

/-! ## Roster partitioner (app.py lines 141-142 and 186-187) -/

/-- `[e for e in entries if e.get("lineupSlotId") not in (20, 21)]` — the same
filter appears in `team_overview` (line 141) and `start_sit` (line 186).
A missing `lineupSlotId` (`None`) is not in `(20, 21)`, so it passes. -/
def startersOf (entries : List RosterEntry) : List RosterEntry :=
  entries.filter fun e => !(e.lineupSlotId == some 20 || e.lineupSlotId == some 21)

/-- `[e for e in entries if e.get("lineupSlotId") in (20, )]` — lines 142 and 187. -/
def benchOf (entries : List RosterEntry) : List RosterEntry :=
  entries.filter fun e => e.lineupSlotId == some 20

/-! ## Recommendation engine (`start_sit`, app.py lines 170-224) -/

/-- The ownership fallback expression of `player_and_proj`:
`((p.get("ownership") or {}).get("percentOwned") or 0) / 10.0`.
(`x or 0` maps both a missing and a zero `percentOwned` to `0`, which
`Option.getD 0` reproduces since `0 / 10 = 0`.) -/
def fallback_signal (p : Player) : ℚ :=
  ((p.ownership.bind Ownership.percentOwned).getD 0) / 10

/-- `player_and_proj(e)` (app.py lines 189-196): the embedded player together
with its week projection, substituting the ownership fallback when the
extractor returns no projection. -/
def player_and_proj (week : Int) (e : RosterEntry) : Player × ℚ :=
  match find_week_projection e.player week with
  | some proj => (e.player, proj)
  | none => (e.player, fallback_signal e.player)

/-- `slot in (pb.get("eligibleSlots") or [])`: a starter's possibly-missing
slot id tested for membership in the bench player's eligible slots.  Python's
`None in <list of ints>` is `False`. -/
def slotEligible (slot : Option Int) (p : Player) : Bool :=
  match slot with
  | some v => (p.eligibleSlots.getD []).contains v
  | none => false

/-- The inner loop of `start_sit` (app.py lines 205-210): fold the bench
through `best`, replacing it whenever an eligible bench player's projection
strictly exceeds the running best.  (The code's `proj_b is not None` guard is
always true, since `player_and_proj` never returns `None`.) -/
def bestCandidate (week : Int) (slot : Option Int) :
    List RosterEntry → Option RosterEntry × ℚ → Option RosterEntry × ℚ
  | [], best => best
  | b :: bs, best =>
    bestCandidate week slot bs
      (if slotEligible slot b.player && decide (best.2 < (player_and_proj week b).2)
       then (some b, (player_and_proj week b).2) else best)

/-- `round(x, 2)`, with floats idealized as exact rationals: round `x * 100`
to the nearest integer and divide by 100. -/
def round2 (q : ℚ) : ℚ :=
  ((q * 100 + 1 / 2).floor : ℚ) / 100

/-- The `"out"` / `"in"` sub-objects of a recommendation. -/
structure PlayerRef where
  pid : Option Int
  name : Option String
  proj : ℚ
deriving DecidableEq

/-- One element of the `recommendations` list built at app.py lines 216-221. -/
structure Recommendation where
  slotId : Option Int
  outRef : PlayerRef
  inRef : PlayerRef
  delta : ℚ
deriving DecidableEq

/-- The body of the per-starter iteration of `start_sit` (app.py lines
200-221): compute the starter's projection, fold the bench for the best
candidate starting from `(None, proj_start)`, and emit a recommendation when a
candidate was found (`if best[0]`; bench entries are dicts containing at least
`lineupSlotId`, hence truthy, so truthiness is `Option.isSome`) and
`best[1] - proj_start >= margin`. -/
def recForStarter (week : Int) (margin : ℚ) (bench : List RosterEntry)
    (s : RosterEntry) : Option Recommendation :=
  let slot := s.lineupSlotId
  let projStart := (player_and_proj week s).2
  let best := bestCandidate week slot bench (none, projStart)
  match best.1 with
  | some b =>
    if margin ≤ best.2 - projStart then
      some
        { slotId := slot
          outRef := { pid := s.playerId, name := s.player.fullName, proj := round2 projStart }
          inRef := { pid := b.playerId, name := b.player.fullName, proj := round2 best.2 }
          delta := round2 (best.2 - projStart) }
    else none
  | none => none

/-- The order of `recs.sort(key=lambda x: -x["delta"])`: ascending in
`-delta`, i.e. descending in `delta`; Python's sort is stable. -/
def recDeltaGE (a b : Recommendation) : Prop := b.delta ≤ a.delta

instance : DecidableRel recDeltaGE := fun a b => by
  unfold recDeltaGE; exact inferInstance

instance : IsTotal Recommendation recDeltaGE :=
  ⟨fun a b => (le_total b.delta a.delta).imp id id⟩

instance : IsTrans Recommendation recDeltaGE :=
  ⟨fun _ _ _ hab hbc => le_trans hbc hab⟩

/-- `teams = {t["id"]: t for t in raw["teams"]}; me = teams.get(team_id)`:
a dict comprehension keeps the last team with a given id. -/
def lookupTeam (teams : List Team) (team_id : Int) : Option Team :=
  teams.foldl (fun acc t => if t.id == team_id then some t else acc) none

/-- The JSON object returned by `/start-sit`.  The missing-team branch has a
`note` and no `count`; the success branch has a `count` and no `note`
(`Option` models key presence). -/
structure StartSitResult where
  week : Int
  teamId : Int
  count : Option Nat
  recommendations : List Recommendation
  note : Option String
deriving DecidableEq

/-- `start_sit` (app.py lines 170-224) after the upstream fetch: `teams` is
the fetched snapshot's team list.  A team dict is truthy (it has an `"id"`
key), so `if not me` is `Option.isNone` of the lookup. -/
def start_sit (teams : List Team) (week : Int) (team_id : Int) (margin : ℚ) :
    StartSitResult :=
  match lookupTeam teams team_id with
  | none =>
      { week := week, teamId := team_id, count := none,
        recommendations := [], note := some "Team not found" }
  | some me =>
    let entries := me.roster.getD []
    let starters := startersOf entries
    let bench := benchOf entries
    let recs := starters.filterMap (recForStarter week margin bench)
    let sortedRecs := List.insertionSort recDeltaGE recs
    { week := week, teamId := team_id, count := some sortedRecs.length,
      recommendations := sortedRecs, note := none }

/-! ## `/team/overview` (app.py lines 112-144) -/

/-- The trimmed per-entry object of `team_overview` (app.py lines 130-139). -/
structure TrimmedEntry where
  pid : Option Int
  name : Option String
  posId : Option Int
  eligibleSlots : Option (List Int)
  slotId : Option Int
  injuryStatus : Option String
deriving DecidableEq

/-- `trim(e)` of `team_overview`. -/
def trim (e : RosterEntry) : TrimmedEntry :=
  { pid := e.playerId, name := e.player.fullName, posId := e.player.defaultPositionId,
    eligibleSlots := e.player.eligibleSlots, slotId := e.lineupSlotId,
    injuryStatus := e.player.injuryStatus }

/-- The JSON object returned by `/team/overview`. -/
structure OverviewResult where
  teamId : Int
  teamName : Option String
  starters : List TrimmedEntry
  bench : List TrimmedEntry
deriving DecidableEq

/-- `team_overview` (app.py lines 112-144) after the upstream fetch / cache
read: the missing-team branch returns nulls and empty lists; otherwise the
trimmed starters and bench, in roster order. -/
def team_overview (teams : List Team) (team_id : Int) : OverviewResult :=
  match lookupTeam teams team_id with
  | none => { teamId := team_id, teamName := none, starters := [], bench := [] }
  | some t =>
    let entries := t.roster.getD []
    { teamId := team_id, teamName := t.name,
      starters := (startersOf entries).map trim,
      bench := (benchOf entries).map trim }

/-! ## Specification-side characterizations -/

/-- Spec-side characterization of "the last record after a stable ascending
sort by `(seasonId, scoringPeriodId)`": the record with the maximal key,
taking the later record on key ties. -/
def latestProjRecord : List Stat → Option Stat
  | [] => none
  | s :: rest =>
    match latestProjRecord rest with
    | none => some s
    | some t => if statKeyLE s t then some t else some s

/-- Spec-side (propositional) phrasing of the exact-match condition of the
extractor: period equals the week, source is a projection, total non-null. -/
def isExactRecord (week : Int) (s : Stat) : Prop :=
  s.scoringPeriodId = some week ∧ s.statSourceId = some 1 ∧ s.appliedTotal ≠ none

/-- Spec-side (propositional) phrasing of the fallback filter condition. -/
def isProjRecord (s : Stat) : Prop :=
  s.statSourceId = some 1 ∧ s.appliedTotal ≠ none

/-! ## Concrete fixtures (the worked examples of the specification) -/

/-- A week-1 projection record worth `q` points. -/
def projStat (q : ℚ) : Stat :=
  { scoringPeriodId := some 1, statSourceId := some 1, appliedTotal := some q }

/-- Spec §8 engine example: the starter in slot 4, projecting 10.0. -/
def egStarter : RosterEntry :=
  { playerId := some 1, lineupSlotId := some 4,
    player := { fullName := some "S", stats := [projStat 10] } }

/-- Spec §8 engine example: bench player A (slot-4 eligible), projecting 10.3. -/
def egBenchA : RosterEntry :=
  { playerId := some 2, lineupSlotId := some 20,
    player := { fullName := some "A", eligibleSlots := some [4, 20],
                stats := [projStat (103 / 10)] } }

/-- Spec §8 engine example: bench player B (slot-4 eligible), projecting 10.6. -/
def egBenchB : RosterEntry :=
  { playerId := some 3, lineupSlotId := some 20,
    player := { fullName := some "B", eligibleSlots := some [4, 20],
                stats := [projStat (106 / 10)] } }

/-- Spec §8 engine example: the team holding the three players above. -/
def egTeam : Team :=
  { id := 7, roster := some [egStarter, egBenchA, egBenchB] }

/-- A bench player with no stat records at all and 80% ownership: its only
signal is the ownership fallback `80 / 10 = 8`. -/
def egBenchNoStats : RosterEntry :=
  { playerId := some 12, lineupSlotId := some 20,
    player := { fullName := some "N", eligibleSlots := some [4, 20], stats := [],
                ownership := some { percentOwned := some 80 } } }

/-- A starter in slot 4 projecting 5 points, to be out-recommended by
`egBenchNoStats` on the fallback signal alone. -/
def egWeakStarter : RosterEntry :=
  { playerId := some 11, lineupSlotId := some 4,
    player := { fullName := some "W", stats := [projStat 5] } }

/-- Team pairing `egWeakStarter` with the stats-less bench player. -/
def egFallbackTeam : Team :=
  { id := 3, roster := some [egWeakStarter, egBenchNoStats] }

/-- Spec §8 extractor example: projections 10.5 (week 1) and 12.0 (week 2). -/
def egExtractPlayer : Player :=
  { stats := [ { scoringPeriodId := some 1, statSourceId := some 1, appliedTotal := some (21 / 2) },
               { scoringPeriodId := some 2, statSourceId := some 1, appliedTotal := some 12 } ] }

/-- A recommendation with delta 0.6, for the ordering example of spec §8. -/
def egRecSmall : Recommendation :=
  { slotId := some 4, outRef := { pid := some 1, name := some "S", proj := 10 },
    inRef := { pid := some 2, name := some "A", proj := 53 / 5 }, delta := 3 / 5 }

/-- A recommendation with delta 1.2, for the ordering example of spec §8. -/
def egRecBig : Recommendation :=
  { slotId := some 6, outRef := { pid := some 4, name := some "T", proj := 7 },
    inRef := { pid := some 5, name := some "C", proj := 41 / 5 }, delta := 6 / 5 }

/-- An injured-reserve entry (slot 21), for the partitioner example. -/
def egIR : RosterEntry :=
  { playerId := some 9, lineupSlotId := some 21,
    player := { fullName := some "I" } }

/-- A roster entry with no `lineupSlotId` field at all. -/
def egNoSlot : RosterEntry :=
  { playerId := some 30, player := { fullName := some "Z" } }

/-! ## Helper lemmas -/

theorem getLast?_orderedInsert {α : Type} (r : α → α → Prop) [DecidableRel r]
    (x : α) (l : List α) :
    (List.orderedInsert r x l).getLast? =
      if ∀ t ∈ l, ¬ r x t then some x else l.getLast? := by
  induction l with
  | nil => simp
  | cons t ts ih =>
    by_cases hrt : r x t
    · rw [List.orderedInsert, if_pos hrt, List.getLast?_cons_cons,
        if_neg (by push_neg; exact ⟨t, List.mem_cons_self t ts, hrt⟩)]
    · rw [List.orderedInsert, if_neg hrt]
      have hne : List.orderedInsert r x ts ≠ [] := by
        intro h
        have := congrArg List.length h
        rw [List.orderedInsert_length] at this
        simp at this
      rw [show (t :: List.orderedInsert r x ts).getLast? =
            (List.orderedInsert r x ts).getLast? by
          cases h : List.orderedInsert r x ts with
          | nil => exact absurd h hne
          | cons b bs => exact List.getLast?_cons_cons]
      rw [ih]
      by_cases hts : ∀ u ∈ ts, ¬ r x u
      · rw [if_pos hts, if_pos (by
          intro u hu
          rcases List.mem_cons.mp hu with h | h
          · exact h ▸ hrt
          · exact hts u h)]
      · rw [if_neg hts, if_neg (by
          intro hall
          exact hts fun u hu => hall u (List.mem_cons_of_mem t hu))]
        push_neg at hts
        obtain ⟨u, hu, _⟩ := hts
        cases ts with
        | nil => exact absurd hu (List.not_mem_nil u)
        | cons b bs => rw [List.getLast?_cons_cons]

theorem sorted_rel_getLast {α : Type} {r : α → α → Prop} [IsTrans α r] :
    ∀ {l : List α}, List.Sorted r l → ∀ {m : α}, l.getLast? = some m →
      ∀ x ∈ l, x = m ∨ r x m := by
  intro l
  induction l with
  | nil => intro _ m hm; simp at hm
  | cons a l' ih =>
    intro hs m hm x hx
    cases l' with
    | nil =>
      simp at hm hx
      exact Or.inl (hx.trans hm)
    | cons b bs =>
      rw [List.getLast?_cons_cons] at hm
      rcases List.mem_cons.mp hx with rfl | hx'
      · have hbm := ih hs.of_cons hm
        have hm_mem : m ∈ b :: bs := List.mem_of_mem_getLast? hm
        exact Or.inr (List.rel_of_sorted_cons hs m hm_mem)
      · exact ih hs.of_cons hm x hx'

theorem getLast?_insertionSort_latest (l : List Stat) :
    (List.insertionSort statKeyLE l).getLast? = latestProjRecord l := by
  induction l with
  | nil => rfl
  | cons s rest ih =>
    rw [List.insertionSort, getLast?_orderedInsert, ih]
    cases hl : latestProjRecord rest with
    | none =>
      have hrest : rest = [] := by
        cases rest with
        | nil => rfl
        | cons a as =>
          rw [latestProjRecord] at hl
          split at hl
          · exact absurd hl (by simp)
          · split at hl <;> exact absurd hl (by simp)
      subst hrest
      simp [latestProjRecord]
    | some t =>
      have hlr : latestProjRecord (s :: rest) = if statKeyLE s t then some t else some s := by
        rw [latestProjRecord, hl]
      rw [hlr]
      have hlast : (List.insertionSort statKeyLE rest).getLast? = some t := ih.trans hl
      have ht_mem : t ∈ List.insertionSort statKeyLE rest := List.mem_of_mem_getLast? hlast
      by_cases hst : statKeyLE s t
      · rw [if_neg (by push_neg; exact ⟨t, ht_mem, hst⟩), if_pos hst]
      · rw [if_pos (by
          intro u hu hsu
          rcases sorted_rel_getLast (List.sorted_insertionSort statKeyLE rest) hlast u hu with
            rfl | hut
          · exact hst hsu
          · exact hst (Trans.trans hsu hut)), if_neg hst]

theorem filter_orderedInsert_pos {α : Type} (r : α → α → Prop) [DecidableRel r]
    (p : α → Bool) (x : α) (l : List α) (hx : p x = true)
    (h : ∀ t ∈ l, ¬ r x t → p t = false) :
    (List.orderedInsert r x l).filter p = x :: l.filter p := by
  induction l with
  | nil => simp [hx]
  | cons t ts ih =>
    by_cases hrt : r x t
    · rw [List.orderedInsert, if_pos hrt, List.filter_cons, if_pos hx]
    · rw [List.orderedInsert, if_neg hrt, List.filter_cons,
        h t (List.mem_cons_self t ts) hrt,
        ih fun u hu => h u (List.mem_cons_of_mem t hu),
        List.filter_cons, h t (List.mem_cons_self t ts) hrt]
      simp

theorem filter_orderedInsert_neg {α : Type} (r : α → α → Prop) [DecidableRel r]
    (p : α → Bool) (x : α) (l : List α) (hx : p x = false) :
    (List.orderedInsert r x l).filter p = l.filter p := by
  induction l with
  | nil => simp [hx]
  | cons t ts ih =>
    by_cases hrt : r x t
    · rw [List.orderedInsert, if_pos hrt, List.filter_cons, hx]
      simp
    · rw [List.orderedInsert, if_neg hrt, List.filter_cons, ih, List.filter_cons]

theorem filter_insertionSort_delta (d : ℚ) (l : List Recommendation) :
    (List.insertionSort recDeltaGE l).filter (fun x => x.delta == d) =
      l.filter (fun x => x.delta == d) := by
  induction l with
  | nil => rfl
  | cons x xs ih =>
    rw [List.insertionSort]
    by_cases hx : x.delta = d
    · rw [filter_orderedInsert_pos recDeltaGE _ x _ (by simp [hx]) (by
        intro t _ hrt
        simp only [beq_eq_false_iff_ne, ne_eq]
        intro htd
        exact hrt (by unfold recDeltaGE; rw [hx, htd])),
        ih, List.filter_cons, if_pos (by simp [hx])]
    · rw [filter_orderedInsert_neg recDeltaGE _ x _ (by simp [hx]), ih,
        List.filter_cons, if_neg (by simp [hx])]

theorem bestCandidate_char (week : Int) (slot : Option Int) :
    ∀ (bs : List RosterEntry) (best : Option RosterEntry × ℚ),
      (bestCandidate week slot bs best = best ∧
        ∀ b ∈ bs, slotEligible slot b.player = true →
          (player_and_proj week b).2 ≤ best.2)
      ∨ (∃ b ∈ bs, slotEligible slot b.player = true ∧
          (bestCandidate week slot bs best).1 = some b ∧
          (bestCandidate week slot bs best).2 = (player_and_proj week b).2 ∧
          best.2 < (player_and_proj week b).2 ∧
          ∀ c ∈ bs, slotEligible slot c.player = true →
            (player_and_proj week c).2 ≤ (player_and_proj week b).2) := by
  intro bs
  induction bs with
  | nil =>
    intro best
    exact Or.inl ⟨rfl, by intro b hb; exact absurd hb (List.not_mem_nil b)⟩
  | cons b bs ih =>
    intro best
    by_cases hcond : (slotEligible slot b.player &&
        decide (best.2 < (player_and_proj week b).2)) = true
    · have heq : bestCandidate week slot (b :: bs) best =
          bestCandidate week slot bs (some b, (player_and_proj week b).2) := by
        rw [bestCandidate, if_pos hcond]
      have hcond' := hcond
      rw [Bool.and_eq_true] at hcond'
      have helig : slotEligible slot b.player = true := hcond'.1
      have hlt : best.2 < (player_and_proj week b).2 := of_decide_eq_true hcond'.2
      rcases ih (some b, (player_and_proj week b).2) with ⟨h1, h2⟩ | ⟨b2, hb2, he2, h1, h2, h3, h4⟩
      · refine Or.inr ⟨b, List.mem_cons_self b bs, helig, ?_, ?_, hlt, ?_⟩
        · rw [heq, h1]
        · rw [heq, h1]
        · intro c hc hce
          rcases List.mem_cons.mp hc with rfl | hc'
          · exact le_refl _
          · exact h2 c hc' hce
      · refine Or.inr ⟨b2, List.mem_cons_of_mem b hb2, he2, ?_, ?_, ?_, ?_⟩
        · rw [heq]; exact h1
        · rw [heq]; exact h2
        · exact hlt.trans h3
        · intro c hc hce
          rcases List.mem_cons.mp hc with rfl | hc'
          · exact le_of_lt h3
          · exact h4 c hc' hce
    · have heq : bestCandidate week slot (b :: bs) best =
          bestCandidate week slot bs best := by
        rw [bestCandidate, if_neg hcond]
      have hble : slotEligible slot b.player = true →
          (player_and_proj week b).2 ≤ best.2 := by
        intro he
        by_contra hgt
        push_neg at hgt
        exact hcond (by rw [he, decide_eq_true hgt]; rfl)
      rcases ih best with ⟨h1, h2⟩ | ⟨b2, hb2, he2, h1, h2, h3, h4⟩
      · refine Or.inl ⟨heq.trans h1, ?_⟩
        intro c hc hce
        rcases List.mem_cons.mp hc with rfl | hc'
        · exact hble hce
        · exact h2 c hc' hce
      · refine Or.inr ⟨b2, List.mem_cons_of_mem b hb2, he2, ?_, ?_, h3, ?_⟩
        · rw [heq]; exact h1
        · rw [heq]; exact h2
        · intro c hc hce
          rcases List.mem_cons.mp hc with rfl | hc'
          · exact (hble hce).trans (le_of_lt h3)
          · exact h4 c hc' hce

theorem lookup_foldl_skip (team_id : Int) :
    ∀ (teams : List Team) (acc : Option Team), (∀ t ∈ teams, t.id ≠ team_id) →
      teams.foldl (fun acc t => if t.id == team_id then some t else acc) acc = acc := by
  intro teams
  induction teams with
  | nil => intro acc _; rfl
  | cons t ts ih =>
    intro acc hall
    rw [List.foldl_cons, if_neg (by
      simp only [beq_iff_eq]
      exact hall t (List.mem_cons_self t ts))]
    exact ih _ fun u hu => hall u (List.mem_cons_of_mem t hu)

theorem lookupTeam_eq_none {teams : List Team} {team_id : Int}
    (h : ∀ t ∈ teams, t.id ≠ team_id) : lookupTeam teams team_id = none :=
  lookup_foldl_skip team_id teams none h

theorem statExactMatch_iff (week : Int) (s : Stat) :
    statExactMatch week s = true ↔ isExactRecord week s := by
  simp [statExactMatch, isExactRecord, Bool.and_eq_true, Option.isSome_iff_ne_none, and_assoc]

theorem statProjRecord_iff (s : Stat) : statProjRecord s = true ↔ isProjRecord s := by
  simp [statProjRecord, isProjRecord, Bool.and_eq_true, Option.isSome_iff_ne_none]

theorem recForStarter_eq (week : Int) (margin : ℚ) (bench : List RosterEntry)
    (s : RosterEntry) :
    recForStarter week margin bench s =
      match (bestCandidate week s.lineupSlotId bench (none, (player_and_proj week s).2)).1 with
      | some b =>
        if margin ≤ (bestCandidate week s.lineupSlotId bench
            (none, (player_and_proj week s).2)).2 - (player_and_proj week s).2 then
          some
            { slotId := s.lineupSlotId
              outRef := { pid := s.playerId, name := s.player.fullName,
                          proj := round2 (player_and_proj week s).2 }
              inRef := { pid := b.playerId, name := b.player.fullName,
                         proj := round2 (bestCandidate week s.lineupSlotId bench
                           (none, (player_and_proj week s).2)).2 }
              delta := round2 ((bestCandidate week s.lineupSlotId bench
                (none, (player_and_proj week s).2)).2 - (player_and_proj week s).2) }
        else none
      | none => none := rfl

/-! ## Claims -/

/-- C1: for every starter entry, `start_sit`'s per-starter step emits a
recommendation iff some slot-eligible bench entry's unrounded projection
strictly exceeds the starter's projection and the best such bench projection
beats it by at least the margin; the emitted recommendation carries the two
projections and the delta rounded to 2 decimal digits, while all comparisons
use unrounded values. -/
theorem spec_C1 (week : Int) (margin : ℚ) (bench : List RosterEntry) (s : RosterEntry) :
    ((recForStarter week margin bench s).isSome = true ↔
      ∃ b ∈ bench, slotEligible s.lineupSlotId b.player = true ∧
        (player_and_proj week s).2 < (player_and_proj week b).2 ∧
        margin ≤ (player_and_proj week b).2 - (player_and_proj week s).2 ∧
        ∀ c ∈ bench, slotEligible s.lineupSlotId c.player = true →
          (player_and_proj week c).2 ≤ (player_and_proj week b).2) ∧
    ∀ r, recForStarter week margin bench s = some r →
      ∃ b ∈ bench, slotEligible s.lineupSlotId b.player = true ∧
        (player_and_proj week s).2 < (player_and_proj week b).2 ∧
        (∀ c ∈ bench, slotEligible s.lineupSlotId c.player = true →
          (player_and_proj week c).2 ≤ (player_and_proj week b).2) ∧
        r.outRef.proj = round2 (player_and_proj week s).2 ∧
        r.inRef.proj = round2 (player_and_proj week b).2 ∧
        r.delta = round2 ((player_and_proj week b).2 - (player_and_proj week s).2) := by
  rcases bestCandidate_char week s.lineupSlotId bench (none, (player_and_proj week s).2) with
    ⟨h1, h2⟩ | ⟨b0, hb0, he0, hB1, hB2, hlt0, hmax0⟩
  · have hnone : recForStarter week margin bench s = none := by
      rw [recForStarter_eq, h1]
    constructor
    · rw [hnone]
      constructor
      · intro h; simp at h
      · rintro ⟨b, hb, he, hlt, -, -⟩
        exact absurd hlt (not_lt.mpr (h2 b hb he))
    · intro r hr
      rw [hnone] at hr
      exact absurd hr (by simp)
  · have hrec : recForStarter week margin bench s =
        if margin ≤ (bestCandidate week s.lineupSlotId bench
            (none, (player_and_proj week s).2)).2 - (player_and_proj week s).2 then
          some
            { slotId := s.lineupSlotId
              outRef := { pid := s.playerId, name := s.player.fullName,
                          proj := round2 (player_and_proj week s).2 }
              inRef := { pid := b0.playerId, name := b0.player.fullName,
                         proj := round2 (bestCandidate week s.lineupSlotId bench
                           (none, (player_and_proj week s).2)).2 }
              delta := round2 ((bestCandidate week s.lineupSlotId bench
                (none, (player_and_proj week s).2)).2 - (player_and_proj week s).2) }
        else none := by
      rw [recForStarter_eq, hB1]
    by_cases hm : margin ≤ (bestCandidate week s.lineupSlotId bench
        (none, (player_and_proj week s).2)).2 - (player_and_proj week s).2
    · rw [hrec, if_pos hm]
      constructor
      · constructor
        · intro _
          exact ⟨b0, hb0, he0, hlt0, by rw [hB2] at hm; exact hm, hmax0⟩
        · intro _; rfl
      · intro r hr
        obtain rfl := (Option.some.inj hr).symm
        exact ⟨b0, hb0, he0, hlt0, hmax0, rfl, by rw [hB2], by rw [hB2]⟩
    · rw [hrec, if_neg hm]
      constructor
      · constructor
        · intro h; simp at h
        · rintro ⟨b, hb, he, hlt, hmg, hmax⟩
          have hbb0 : (player_and_proj week b).2 = (player_and_proj week b0).2 :=
            le_antisymm (hmax0 b hb he) (hmax b0 hb0 he0)
          rw [hbb0, ← hB2] at hmg
          exact absurd hmg hm
      · intro r hr
        exact absurd hr (by simp)

/-- Witness for C1 at the spec §8 example: starter projecting 10 in slot 4,
bench players at 10.3 and 10.6, margin 0.5 — a recommendation is emitted. -/
theorem spec_C1_witness :
    (recForStarter 1 (1 / 2) [egBenchA, egBenchB] egStarter).isSome = true := by
  have hS : (player_and_proj 1 egStarter).2 = 10 := by
    norm_num [player_and_proj, find_week_projection, egStarter, projStat,
      statExactMatch, List.find?]
  have hA : (player_and_proj 1 egBenchA).2 = 103 / 10 := by
    norm_num [player_and_proj, find_week_projection, egBenchA, projStat,
      statExactMatch, List.find?]
  have hB : (player_and_proj 1 egBenchB).2 = 106 / 10 := by
    norm_num [player_and_proj, find_week_projection, egBenchB, projStat,
      statExactMatch, List.find?]
  apply (spec_C1 1 (1 / 2) [egBenchA, egBenchB] egStarter).1.mpr
  refine ⟨egBenchB, by simp, by rfl, ?_, ?_, ?_⟩
  · rw [hS, hB]; norm_num
  · rw [hS, hB]; norm_num
  · intro c hc hce
    rcases List.mem_cons.mp hc with rfl | hc'
    · rw [hA, hB]; norm_num
    · rcases List.mem_cons.mp hc' with rfl | hc''
      · rw [hB]
      · exact absurd hc'' (List.not_mem_nil c)

/-- C2: the projection extractor returns the total of an exact-match record
(week, source 1, non-null) when one exists; otherwise the total of the record
that is last after a stable ascending sort of all projection records by
`(seasonId, scoringPeriodId)` — characterized as the latest maximal-key
record; and an absent value when no projection record exists at all. -/
theorem spec_C2 (p : Player) (week : Int) :
    ((∃ s ∈ p.stats, isExactRecord week s) →
      ∃ s0 ∈ p.stats, isExactRecord week s0 ∧
        find_week_projection p week = s0.appliedTotal) ∧
    ((¬ ∃ s ∈ p.stats, isExactRecord week s) →
      find_week_projection p week =
        (latestProjRecord (p.stats.filter statProjRecord)).bind Stat.appliedTotal) ∧
    ((¬ ∃ s ∈ p.stats, isExactRecord week s) → (∀ s ∈ p.stats, ¬ isProjRecord s) →
      find_week_projection p week = none) := by
  refine ⟨?_, ?_, ?_⟩
  · rintro ⟨s, hs, hex⟩
    cases hfind : p.stats.find? (statExactMatch week) with
    | none =>
      rw [List.find?_eq_none] at hfind
      exact absurd ((statExactMatch_iff week s).mpr hex) (hfind s hs)
    | some s0 =>
      refine ⟨s0, List.mem_of_find?_eq_some hfind,
        (statExactMatch_iff week s0).mp (List.find?_some hfind), ?_⟩
      unfold find_week_projection
      rw [hfind]
  · intro hno
    have hfind : p.stats.find? (statExactMatch week) = none := by
      rw [List.find?_eq_none]
      intro s hs hex
      exact hno ⟨s, hs, (statExactMatch_iff week s).mp hex⟩
    unfold find_week_projection
    rw [hfind, getLast?_insertionSort_latest]
    cases latestProjRecord (p.stats.filter statProjRecord) <;> rfl
  · intro hno hnoproj
    have hfind : p.stats.find? (statExactMatch week) = none := by
      rw [List.find?_eq_none]
      intro s hs hex
      exact hno ⟨s, hs, (statExactMatch_iff week s).mp hex⟩
    have hfilter : p.stats.filter statProjRecord = [] := by
      rw [List.filter_eq_nil_iff]
      intro s hs hps
      exact hnoproj s hs ((statProjRecord_iff s).mp hps)
    unfold find_week_projection
    rw [hfind, hfilter]
    rfl

/-- Witness for C2 at the spec §8 extractor example: week 2 has an exact
match, so the extractor returns the total of an exact-match record. -/
theorem spec_C2_witness :
    ∃ s0 ∈ egExtractPlayer.stats, isExactRecord 2 s0 ∧
      find_week_projection egExtractPlayer 2 = s0.appliedTotal := by
  apply (spec_C2 egExtractPlayer 2).1
  refine ⟨{ scoringPeriodId := some 2, statSourceId := some 1, appliedTotal := some 12 },
    by simp [egExtractPlayer], ?_⟩
  exact ⟨rfl, rfl, by simp⟩

theorem start_sit_recommendations (teams : List Team) (week team_id : Int) (margin : ℚ) :
    (start_sit teams week team_id margin).recommendations =
      match lookupTeam teams team_id with
      | none => []
      | some me =>
        List.insertionSort recDeltaGE
          ((startersOf (me.roster.getD [])).filterMap
            (recForStarter week margin (benchOf (me.roster.getD [])))) := by
  unfold start_sit
  cases lookupTeam teams team_id <;> rfl

/-- C3: partitioning yields exactly the entries whose `lineupSlotId` is
neither 20 nor 21 as starters and exactly those with 20 as bench, each in
original order (sublists of the input); every slot-21 entry is in neither;
and the spec's `[20, 21, 4, 20]` example splits as stated. -/
theorem spec_C3 (entries : List RosterEntry) :
    (startersOf entries =
      entries.filter fun e => decide (e.lineupSlotId ≠ some 20 ∧ e.lineupSlotId ≠ some 21)) ∧
    (benchOf entries = entries.filter fun e => decide (e.lineupSlotId = some 20)) ∧
    (startersOf entries).Sublist entries ∧ (benchOf entries).Sublist entries ∧
    (∀ e ∈ entries, e.lineupSlotId = some 21 →
      e ∉ startersOf entries ∧ e ∉ benchOf entries) ∧
    ∀ a b c d : RosterEntry,
      a.lineupSlotId = some 20 → b.lineupSlotId = some 21 →
      c.lineupSlotId = some 4 → d.lineupSlotId = some 20 →
      startersOf [a, b, c, d] = [c] ∧ benchOf [a, b, c, d] = [a, d] := by
  refine ⟨?_, ?_, List.filter_sublist entries, List.filter_sublist entries, ?_, ?_⟩
  · exact List.filter_congr fun e _ => by
      by_cases h1 : e.lineupSlotId = some 20 <;> by_cases h2 : e.lineupSlotId = some 21 <;>
        simp [h1, h2]
  · exact List.filter_congr fun e _ => by
      by_cases h1 : e.lineupSlotId = some 20 <;> simp [h1]
  · intro e _ h21
    constructor
    · intro hmem
      have := (List.mem_filter.mp hmem).2
      rw [h21] at this
      simp at this
    · intro hmem
      have := (List.mem_filter.mp hmem).2
      rw [h21] at this
      simp at this
  · intro a b c d ha hb hc hd
    constructor
    · simp [startersOf, List.filter, ha, hb, hc, hd]
    · simp [benchOf, List.filter, ha, hb, hc, hd]

/-- Witness for C3 at the spec §8 partitioner example (slots 20, 21, 4, 20). -/
theorem spec_C3_witness :
    startersOf [egBenchA, egIR, egStarter, egBenchB] = [egStarter] ∧
    benchOf [egBenchA, egIR, egStarter, egBenchB] = [egBenchA, egBenchB] :=
  (spec_C3 [egBenchA, egIR, egStarter, egBenchB]).2.2.2.2.2
    egBenchA egIR egStarter egBenchB rfl rfl rfl rfl

/-- C4: when the extractor yields no projection for an entry, the engine
substitutes exactly `ownership.percentOwned / 10.0`, and `0` when the
ownership data is absent. -/
theorem spec_C4 (week : Int) (e : RosterEntry)
    (h : find_week_projection e.player week = none) :
    (∀ ow q, e.player.ownership = some ow → ow.percentOwned = some q →
      (player_and_proj week e).2 = q / 10) ∧
    (e.player.ownership = none → (player_and_proj week e).2 = 0) := by
  have hp : (player_and_proj week e).2 = fallback_signal e.player := by
    unfold player_and_proj
    rw [h]
  constructor
  · intro ow q how hq
    rw [hp]
    unfold fallback_signal
    rw [how]
    simp [hq]
  · intro how
    rw [hp]
    unfold fallback_signal
    rw [how]
    simp

/-- Witness for C4: a player with no stat records and 80% ownership is scored
`80 / 10`. -/
theorem spec_C4_witness : (player_and_proj 1 egBenchNoStats).2 = 80 / 10 :=
  (spec_C4 1 egBenchNoStats rfl).1 { percentOwned := some 80 } 80 rfl rfl

/-- C5: the recommendation list returned by `start_sit` is sorted descending
by `delta`; the sort is stable on delta ties (it preserves the original
relative order of equal-delta recommendations); and two recommendations with
deltas 0.6 and 1.2 come out in the order `[1.2, 0.6]`. -/
theorem spec_C5 (teams : List Team) (week team_id : Int) (margin : ℚ) :
    List.Sorted recDeltaGE (start_sit teams week team_id margin).recommendations ∧
    (∀ (l : List Recommendation) (d : ℚ),
      (List.insertionSort recDeltaGE l).filter (fun x => x.delta == d) =
        l.filter (fun x => x.delta == d)) ∧
    ∀ r1 r2 : Recommendation, r1.delta = 3 / 5 → r2.delta = 6 / 5 →
      List.insertionSort recDeltaGE [r1, r2] = [r2, r1] := by
  refine ⟨?_, fun l d => filter_insertionSort_delta d l, ?_⟩
  · rw [start_sit_recommendations]
    cases lookupTeam teams team_id with
    | none => exact List.sorted_nil
    | some me => exact List.sorted_insertionSort recDeltaGE _
  · intro r1 r2 h1 h2
    have hno : ¬ recDeltaGE r1 r2 := by
      unfold recDeltaGE
      rw [h1, h2]
      norm_num
    simp [List.insertionSort, List.orderedInsert, hno]

/-- Witness for C5: two concrete recommendations with deltas 0.6 and 1.2 are
ordered `[1.2, 0.6]` by the engine's sort. -/
theorem spec_C5_witness :
    List.insertionSort recDeltaGE [egRecSmall, egRecBig] = [egRecBig, egRecSmall] :=
  (spec_C5 [] 1 1 0).2.2 egRecSmall egRecBig rfl rfl

theorem cache_get_fst_none {α : Type} {c : CacheState α} {now key ttl}
    (hc : c key = none) : (cache_get c now key ttl).1 = none := by
  unfold cache_get
  rw [hc]

theorem cache_get_fst_some {α : Type} {c : CacheState α} {now key ttl} {ts : ℚ} {v : α}
    (hc : c key = some (ts, v)) :
    (cache_get c now key ttl).1 = if now - ts < ttl then some v else none := by
  unfold cache_get
  rw [hc]

theorem cache_get_snd {α : Type} (c : CacheState α) (now : ℚ) (key : String) (ttl : ℚ) :
    (cache_get c now key ttl).2 = c := by
  unfold cache_get
  cases c key with
  | none => rfl
  | some row => cases row; rfl

/-- C6: a cache read at time `now` with a given `ttl` returns the stored value
iff an entry for the key exists and `now - storedAt < ttl` (strictly); a put
followed immediately by a get with positive ttl returns the value; and a get
whose elapsed time is at least the ttl returns an absent value. -/
theorem spec_C6 {α : Type} (c : CacheState α) (now : ℚ) (key : String) (ttl : ℚ) :
    (∀ v : α, (cache_get c now key ttl).1 = some v ↔
      ∃ ts, c key = some (ts, v) ∧ now - ts < ttl) ∧
    (∀ (t : ℚ) (v : α), 0 < ttl →
      (cache_get (cache_put c t key v) t key ttl).1 = some v) ∧
    (∀ (t now2 : ℚ) (v : α), ttl ≤ now2 - t →
      (cache_get (cache_put c t key v) now2 key ttl).1 = none) := by
  have hput : ∀ (t : ℚ) (v : α), cache_put c t key v key = some (t, v) := by
    intro t v
    unfold cache_put
    rw [if_pos rfl]
  refine ⟨?_, ?_, ?_⟩
  · intro v
    cases hc : c key with
    | none =>
      rw [cache_get_fst_none hc]
      constructor
      · intro h; exact absurd h (by simp)
      · rintro ⟨ts, hts, -⟩
        exact absurd hts (by simp)
    | some row =>
      obtain ⟨ts0, v0⟩ := row
      rw [cache_get_fst_some hc]
      by_cases hlt : now - ts0 < ttl
      · rw [if_pos hlt]
        constructor
        · intro h
          exact ⟨ts0, by rw [Option.some.inj h], hlt⟩
        · rintro ⟨ts, hts, h⟩
          have h1 := Option.some.inj hts
          injection h1 with h2 h3
          rw [h3]
      · rw [if_neg hlt]
        constructor
        · intro h; exact absurd h (by simp)
        · rintro ⟨ts, hts, h⟩
          have h1 := Option.some.inj hts
          injection h1 with h2 h3
          rw [h2] at hlt
          exact absurd h hlt
  · intro t v httl
    rw [cache_get_fst_some (hput t v), if_pos (by rw [sub_self]; exact httl)]
  · intro t now2 v h
    rw [cache_get_fst_some (hput t v), if_neg (not_lt.mpr h)]

/-- Witness for C6 at a concrete state: an empty cache, key "k", value 5,
written at time 0 and read back at time 0 with ttl 10. -/
theorem spec_C6_witness :
    (cache_get (cache_put (fun _ => none) 0 "k" (5 : Nat)) 0 "k" 10).1 = some 5 :=
  (spec_C6 (fun _ => none) 0 "k" 10).2.1 0 5 (by norm_num)

/-- C7: a cache read never modifies the state — a stale entry stays stored and
a later read with a larger ttl can still return it — while a put overwrites
exactly the given key with the new value and current timestamp and leaves
every other key unchanged. -/
theorem spec_C7 {α : Type} (c : CacheState α) (now : ℚ) (key : String) (ttl : ℚ) :
    (cache_get c now key ttl).2 = c ∧
    (∀ (ts : ℚ) (v : α) (now2 ttl2 : ℚ),
      (cache_get c now key ttl).1 = none → c key = some (ts, v) → now2 - ts < ttl2 →
      (cache_get c now2 key ttl2).1 = some v) ∧
    (∀ (t : ℚ) (v : α), cache_put c t key v key = some (t, v)) ∧
    (∀ (t : ℚ) (v : α) (k2 : String), k2 ≠ key → cache_put c t key v k2 = c k2) := by
  refine ⟨cache_get_snd c now key ttl, ?_, ?_, ?_⟩
  · intro ts v now2 ttl2 _ hts hlt
    rw [cache_get_fst_some hts, if_pos hlt]
  · intro t v
    unfold cache_put
    rw [if_pos rfl]
  · intro t v k2 hk
    unfold cache_put
    rw [if_neg hk]

/-- Witness for C7: a value stored at time 0 is stale for a ttl-5 read at
time 10, yet remains stored and is returned by a ttl-20 read at time 10. -/
theorem spec_C7_witness :
    (cache_get (cache_put (fun _ => none) 0 "k" (5 : Nat)) 10 "k" 20).1 = some 5 := by
  have h := spec_C7 (cache_put (fun _ => none) 0 "k" (5 : Nat)) 10 "k" 5
  have hput : cache_put (fun _ => none) 0 "k" (5 : Nat) "k" = some (0, 5) :=
    (spec_C7 (fun _ => none) 0 "k" 0).2.2.1 0 5
  exact h.2.1 0 5 10 20
    (by rw [cache_get_fst_some hput, if_neg (by norm_num)])
    hput (by norm_num)

/-- C8: when the requested team id is absent from the snapshot, `/start-sit`
returns an empty recommendation list together with a note field, and
`/team/overview` returns the team id with a null name and empty starters and
bench lists — neither handler fails. -/
theorem spec_C8 (teams : List Team) (week team_id : Int) (margin : ℚ)
    (h : ∀ t ∈ teams, t.id ≠ team_id) :
    start_sit teams week team_id margin =
      { week := week, teamId := team_id, count := none, recommendations := [],
        note := some "Team not found" } ∧
    team_overview teams team_id =
      { teamId := team_id, teamName := none, starters := [], bench := [] } := by
  have hl := lookupTeam_eq_none h
  constructor
  · unfold start_sit
    rw [hl]
  · unfold team_overview
    rw [hl]

/-- Witness for C8: team id 99 is not in a snapshot holding only team 7. -/
theorem spec_C8_witness :
    start_sit [egTeam] 1 99 (1 / 2) =
      { week := 1, teamId := 99, count := none, recommendations := [],
        note := some "Team not found" } ∧
    team_overview [egTeam] 99 =
      { teamId := 99, teamName := none, starters := [], bench := [] } :=
  spec_C8 [egTeam] 1 99 (1 / 2) (by
    intro t ht
    rcases List.mem_singleton.mp ht with rfl
    decide)

/-- C9: the ownership fallback applies to bench candidates as well: an entry
whose player has no projection is scored `percentOwned / 10` (0 with no
ownership data), and a bench player with no stat records at all can be
recommended over a starter on that fallback value alone (the concrete run
recommends the stats-less 80%-owned bench player over a 5-point starter). -/
theorem spec_C9 :
    (∀ (week : Int) (b : RosterEntry), find_week_projection b.player week = none →
      (player_and_proj week b).2 =
        ((b.player.ownership.bind Ownership.percentOwned).getD 0) / 10) ∧
    (start_sit [egFallbackTeam] 1 3 1).recommendations =
      [ { slotId := some 4,
          outRef := { pid := some 11, name := some "W", proj := round2 5 },
          inRef := { pid := some 12, name := some "N", proj := round2 8 },
          delta := round2 3 } ] := by
  constructor
  · intro week b h
    unfold player_and_proj
    rw [h]
    rfl
  · norm_num [start_sit, egFallbackTeam, lookupTeam, startersOf, benchOf, recForStarter,
      bestCandidate, player_and_proj, find_week_projection, fallback_signal, statExactMatch,
      statProjRecord, slotEligible, egWeakStarter, egBenchNoStats, projStat, List.filter,
      List.filterMap, List.find?, List.insertionSort, List.orderedInsert, recDeltaGE]

/-- Witness for C9: the stats-less 80%-owned bench player is scored `80 / 10`. -/
theorem spec_C9_witness :
    (player_and_proj 2 egBenchNoStats).2 =
      ((egBenchNoStats.player.ownership.bind Ownership.percentOwned).getD 0) / 10 :=
  spec_C9.1 2 egBenchNoStats rfl

/-- C10: a roster entry with no `lineupSlotId` is classified as a starter by
the partitioning filters used by both `team_overview` and `start_sit`, and
never appears in the bench list (also not among the trimmed bench entries,
whose slot ids are all 20). -/
theorem spec_C10 (entries : List RosterEntry) (e : RosterEntry)
    (he : e ∈ entries) (hs : e.lineupSlotId = none) :
    e ∈ startersOf entries ∧ e ∉ benchOf entries ∧
    trim e ∈ (startersOf entries).map trim ∧ trim e ∉ (benchOf entries).map trim := by
  have h1 : e ∈ startersOf entries := List.mem_filter.mpr ⟨he, by rw [hs]; rfl⟩
  have h2 : e ∉ benchOf entries := by
    intro hmem
    have hcond := (List.mem_filter.mp hmem).2
    rw [hs] at hcond
    simp at hcond
  refine ⟨h1, h2, List.mem_map_of_mem trim h1, ?_⟩
  intro hmem
  obtain ⟨e2, he2, htr⟩ := List.mem_map.mp hmem
  have h20 : e2.lineupSlotId = some 20 := by
    have hcond := (List.mem_filter.mp he2).2
    simpa using hcond
  have hsl : (trim e2).slotId = (trim e).slotId := by rw [htr]
  rw [show (trim e2).slotId = e2.lineupSlotId from rfl,
      show (trim e).slotId = e.lineupSlotId from rfl, h20, hs] at hsl
  exact Option.noConfusion hsl

/-- Witness for C10: a concrete slot-less entry lands among the starters and
not on the bench. -/
theorem spec_C10_witness :
    egNoSlot ∈ startersOf [egNoSlot, egBenchA] ∧
    egNoSlot ∉ benchOf [egNoSlot, egBenchA] ∧
    trim egNoSlot ∈ (startersOf [egNoSlot, egBenchA]).map trim ∧
    trim egNoSlot ∉ (benchOf [egNoSlot, egBenchA]).map trim :=
  spec_C10 [egNoSlot, egBenchA] egNoSlot (List.mem_cons_self egNoSlot [egBenchA]) rfl
